import Mathlib

/-!
Verification of the `requests-parser` repository (package `request`).

The Go sources are shallowly embedded below.  The parser reads a template
file, renders it with caller data, and parses the rendered text into an
HTTP request: request line, MIME-style headers, body.  External
capabilities used by the code are modelled as oracles in `Env`:

* `render` models `text/template` rendering of a resolved file
  (`template.ParseFiles` + `Execute`); it either produces the rendered
  text or fails with an underlying cause (file not found, template
  syntax error, or substitution failure are all failures of this
  oracle).  No partial output is produced on failure.
* `urlParse` models `net/url.Parse`; it either produces the parsed URL
  (represented by a string) or fails with an underlying cause.

The rendered buffer is modelled as its list of physical lines
(`splitLines`), matching `bufio`/`textproto` line reading: each line is
terminated by a newline whose optional preceding carriage return is
elided, and a final partial line without a terminator is still a line.
`textproto.Reader` is modelled over that list: `readLine` returns the
next raw line, `readContinuedLine` folds RFC-2822 continuation lines
(a following line beginning with a space or tab is appended after a
single space, each piece trimmed of leading and trailing spaces and
tabs), and `readMIMEHeader` models `Reader.ReadMIMEHeader`.

Errors reading from the in-memory buffer other than end-of-input cannot
occur, so the `BodyError` paths guarded by such errors are not
reachable in the embedding; the constructor is kept for completeness of
the error taxonomy of `errors.go`.  Machine integers play no role.
-/

/-- Space or tab, the white space class used by `textproto` trimming. -/
def isSpaceTab (c : Char) : Bool := c == ' ' || c == '\t'

/-- Trim leading and trailing spaces and tabs (textproto `trim`). -/
def trimST (s : String) : String :=
  ⟨((s.data.dropWhile isSpaceTab).reverse.dropWhile isSpaceTab).reverse⟩

/-- Trim leading spaces and tabs (used on MIME header values). -/
def trimLeftST (s : String) : String := ⟨s.data.dropWhile isSpaceTab⟩

/-- Trim leading and trailing white space (`strings.TrimSpace`). -/
def trimWS (s : String) : String :=
  ⟨((s.data.dropWhile Char.isWhitespace).reverse.dropWhile Char.isWhitespace).reverse⟩

/-- Drop the first character (`line[1:]` on a line known to start with an
ASCII character). -/
def strTail (s : String) : String := ⟨s.data.tail⟩

/-- Model of `strings.HasPrefix` (kernel-evaluable). -/
def strHasPrefix (s pre : String) : Bool := pre.data.isPrefixOf s.data

/-- Whether the first character is a space or tab. -/
def startsWithST (s : String) : Bool :=
  match s.data with
  | [] => false
  | c :: _ => isSpaceTab c

/-- Split rendered text into its physical lines, the way successive
`bufio.Reader.ReadLine` calls deliver them: a `\n` ends a line and an
immediately preceding `\r` is elided; a final chunk without a newline is
still returned as a line.  The accumulator holds the current line
reversed. -/
def splitLinesAux : List Char → List Char → List String
  | acc, [] => if acc.isEmpty then [] else [⟨acc.reverse⟩]
  | acc, c :: cs =>
    if c = '\n' then
      (⟨(if acc.head? = some '\x0d' then acc.tail else acc).reverse⟩ : String)
        :: splitLinesAux [] cs
    else splitLinesAux (c :: acc) cs

/-- Lines of a rendered buffer. -/
def splitLines (s : String) : List String := splitLinesAux [] s.data

/-- Model of `strings.Fields`: maximal runs of non white space characters. -/
def fieldsAux : List Char → List Char → List String
  | acc, [] => if acc.isEmpty then [] else [⟨acc.reverse⟩]
  | acc, c :: cs =>
    if c.isWhitespace then
      if acc.isEmpty then fieldsAux [] cs
      else (⟨acc.reverse⟩ : String) :: fieldsAux [] cs
    else fieldsAux (c :: acc) cs

/-- Whitespace-separated fields of a request line (`strings.Fields`). -/
def goFields (s : String) : List String := fieldsAux [] s.data

/-- Fold continuation lines onto an already read first line: while the
next physical line begins with a space or tab, append a single space and
that line trimmed of surrounding spaces and tabs
(`textproto.Reader.readContinuedLineSlice`, continuation loop). -/
def foldCont (acc : String) : List String → String × List String
  | [] => (acc, [])
  | l :: rest =>
    if startsWithST l then foldCont (acc ++ " " ++ trimST l) rest
    else (acc, l :: rest)

/-- Model of `textproto.Reader.ReadContinuedLine`: `none` is end of
input; a blank physical line is returned as is and never continued;
otherwise the trimmed line with its folded continuations is returned. -/
def readContinuedLine : List String → Option (String × List String)
  | [] => none
  | l :: rest => if l = "" then some ("", rest) else some (foldCont (trimST l) rest)

/-- Valid MIME header field name character (RFC 7230 token characters,
`textproto.validHeaderFieldByte`). -/
def validHeaderFieldChar (c : Char) : Bool :=
  c.isAlphanum || c == '!' || c == '#' || c == '$' || c == '%' || c == '&' ||
  c == '\x27' || c == '*' || c == '+' || c == '-' || c == '.' || c == '^' ||
  c == '_' || c == '\x60' || c == '|' || c == '~'

/-- Canonical MIME case: upper case the first letter and every letter
following a dash, lower case the rest. -/
def canonicalChars : Bool → List Char → List Char
  | _, [] => []
  | upper, c :: cs =>
    (if upper then c.toUpper else c.toLower) :: canonicalChars (c == '-') cs

/-- Model of `textproto.CanonicalMIMEHeaderKey`: keys containing an
invalid field character are returned unchanged. -/
def canonicalMIMEHeaderKey (s : String) : String :=
  if s.data.all validHeaderFieldChar then ⟨canonicalChars true s.data⟩ else s

/-- Split a header line at its first colon (`bytes.Cut`); `none` when no
colon occurs. -/
def splitAtColonAux : List Char → Option (List Char × List Char)
  | [] => none
  | c :: cs =>
    if c = ':' then some ([], cs)
    else (splitAtColonAux cs).map fun p => (c :: p.1, p.2)

/-- String version of `splitAtColonAux`. -/
def splitAtColon (s : String) : Option (String × String) :=
  (splitAtColonAux s.data).map fun p => (⟨p.1⟩, ⟨p.2⟩)

/-- How a header block ended: a blank line, end of input, or a malformed
line (`textproto.ProtocolError`). -/
inductive HdrEnd where
  | done
  | eof
  | malformed (line : String)
  deriving DecidableEq, Repr

/-- Model of `textproto.Reader.ReadMIMEHeader`, main loop: read continued
lines until a blank line (`HdrEnd.done`), end of input (`HdrEnd.eof`) or
a line without a colon (`HdrEnd.malformed`); canonicalize keys, skip
empty keys, trim leading spaces and tabs of values.  Headers read before
the end condition are returned in either case, together with the
remaining lines.  The fuel is one more than the number of remaining
lines, which the loop strictly consumes. -/
def readMIMEHeaderF : Nat → List (String × String) → List String →
    List (String × String) × HdrEnd × List String
  | 0, acc, input => (acc, .eof, input)
  | fuel + 1, acc, input =>
    match readContinuedLine input with
    | none => (acc, .eof, [])
    | some (kv, rest) =>
      if kv = "" then (acc, .done, rest)
      else
        match splitAtColon kv with
        | none => (acc, .malformed kv, rest)
        | some (k, v) =>
          let key := canonicalMIMEHeaderKey k
          if key = "" then readMIMEHeaderF fuel acc rest
          else readMIMEHeaderF fuel (acc ++ [(key, trimLeftST v)]) rest

/-- Model of `textproto.Reader.ReadMIMEHeader` including the initial
check that the first header line does not begin with white space. -/
def readMIMEHeader (input : List String) :
    List (String × String) × HdrEnd × List String :=
  match input with
  | [] => ([], .eof, [])
  | l :: rest =>
    if startsWithST l then ([], .malformed l, rest)
    else readMIMEHeaderF (input.length + 1) [] (l :: rest)

/-- The closed error taxonomy of `errors.go`.  Each constructor carries
the resolved file path and, where the Go struct has them, the underlying
cause, the offending line, or the offending URL; the `Error()` message is
rendered from exactly these fields. -/
inductive ParseError where
  | templateError (file : String) (cause : String)
  | invalidRequestFileError (file : String) (cause : String)
  | invalidRequestLineError (file : String) (line : String)
  | invalidURLError (file : String) (url : String) (cause : String)
  | invalidHeaderError (file : String) (cause : String)
  | bodyError (file : String) (cause : String)
  deriving DecidableEq, Repr

/-- The relevant fields of `http.Request` as the parser produces them:
`Method`, the parsed `URL` (`none` while unset), `Proto`, the header map
(`none` models a nil `http.Header`), and the body (`none` models a nil
`Body`).  The header map is the insertion-ordered list of key/value
pairs read by `ReadMIMEHeader`. -/
structure Request where
  Method : String
  URL : Option String
  Proto : String
  Header : Option (List (String × String))
  Body : Option String
  deriving DecidableEq, Repr

/-- External capabilities: template rendering of a resolved file path
with caller data of type `α`, and URL parsing. -/
structure Env (α : Type) where
  render : String → α → Except String String
  urlParse : String → Except String String

/-- The parser configuration (`Parser` struct): base URL prefix and base
directory. -/
structure Parser where
  BaseURL : String
  Path : String

/-- Canonical line terminator written between body lines (`httpEOL`). -/
def httpEOL : String := "\x0d\n"

/-- Model of `strings.HasPrefix(line, "#") || strings.HasPrefix(line, "//")`
(`isComment`). -/
def isComment (line : String) : Bool :=
  strHasPrefix line "#" || strHasPrefix line "//"

/-- Resolved file path, `filepath.Join(p.Path, fileName)` (modelled for
clean inputs, without lexical cleaning). -/
def Parser.file (p : Parser) (fileName : String) : String :=
  if p.Path = "" then fileName else p.Path ++ "/" ++ fileName

/-- Model of `Parser.exec`: resolve the file and render it; any rendering
failure becomes a `templateError` carrying the resolved path and the
cause, and no output is returned. -/
def Parser.exec {α : Type} (p : Parser) (env : Env α) (fileName : String) (data : α) :
    Except ParseError String :=
  match env.render (p.file fileName) data with
  | .error cause => .error (.templateError (p.file fileName) cause)
  | .ok text => .ok text

/-- Model of `Parser.parseURL`: concatenate the base URL prefix with the
field and parse the concatenation; a parse failure becomes an
`invalidURLError` carrying the resolved path, the concatenated URL and
the cause. -/
def Parser.parseURL {α : Type} (p : Parser) (env : Env α) (fileName s : String) :
    Except ParseError String :=
  match env.urlParse (p.BaseURL ++ s) with
  | .error cause => .error (.invalidURLError (p.file fileName) (p.BaseURL ++ s) cause)
  | .ok u => .ok u

/-- Model of `Parser.parseRequestLine`: dispatch on the number of
whitespace-separated fields; 1 field is a bare URL with method GET,
2 fields are method and URL, 3 fields add the protocol, anything else is
an `invalidRequestLineError` carrying the resolved path and the literal
line. -/
def Parser.parseRequestLine {α : Type} (p : Parser) (env : Env α)
    (fileName line : String) : Except ParseError Request :=
  match goFields line with
  | [u] =>
    match p.parseURL env fileName u with
    | .error e => .error e
    | .ok w => .ok { Method := "GET", URL := some w, Proto := "",
                     Header := none, Body := none }
  | [m, u] =>
    match p.parseURL env fileName u with
    | .error e => .error e
    | .ok w => .ok { Method := m, URL := some w, Proto := "",
                     Header := none, Body := none }
  | [m, u, proto] =>
    match p.parseURL env fileName u with
    | .error e => .error e
    | .ok w => .ok { Method := m, URL := some w, Proto := proto,
                     Header := none, Body := none }
  | _ => .error (.invalidRequestLineError (p.file fileName) line)

/-- Model of `Parser.parseRequest`, the seek loop: read continued lines,
skip comments, parse the first non-comment logical line as the request
line; end of input yields an `invalidRequestFileError` whose cause is
the end-of-input condition (`io.EOF`).  The fuel is one more than the
number of remaining lines, which the loop strictly consumes. -/
def Parser.seekRequest {α : Type} (p : Parser) (env : Env α) (fileName : String) :
    Nat → List String → Except ParseError (Request × List String)
  | 0, _ => .error (.invalidRequestFileError (p.file fileName) "EOF")
  | fuel + 1, input =>
    match readContinuedLine input with
    | none => .error (.invalidRequestFileError (p.file fileName) "EOF")
    | some (line, rest) =>
      if isComment line then p.seekRequest env fileName fuel rest
      else
        match p.parseRequestLine env fileName line with
        | .error e => .error e
        | .ok req => .ok (req, rest)

/-- `Parser.parseRequest` with sufficient fuel for its input. -/
def Parser.parseRequest {α : Type} (p : Parser) (env : Env α) (fileName : String)
    (input : List String) : Except ParseError (Request × List String) :=
  p.seekRequest env fileName (input.length + 1) input

/-- Model of `Parser.parseHeaders`: read the MIME header block and store
it on the request (the map is set even when reading ended early), and
report how the block ended. -/
def Parser.parseHeaders (p : Parser) (req : Request) (input : List String) :
    Request × HdrEnd × List String :=
  match readMIMEHeader input with
  | (h, e, rest) => ({ req with Header := some h }, e, rest)

/-- Model of the accumulation loop of `Parser.parseBody`: read raw lines
until end of input; a line beginning with `<` includes the rendering of
the referenced file (`appendFile`, with the name trimmed of white
space), otherwise the line itself is appended; either contribution is
followed by `httpEOL`. -/
def Parser.parseBodyAcc {α : Type} (p : Parser) (env : Env α) (data : α)
    (acc : String) : List String → Except ParseError String
  | [] => .ok acc
  | l :: rest =>
    if strHasPrefix l "<" then
      match p.exec env (trimWS (strTail l)) data with
      | .error e => .error e
      | .ok text => p.parseBodyAcc env data (acc ++ text ++ httpEOL) rest
    else p.parseBodyAcc env data (acc ++ l ++ httpEOL) rest

/-- Model of `Parser.parseBody`: run the accumulation loop from an empty
builder; the body is set only when the builder is nonempty
(`sb.Len() > 0`), otherwise it stays absent.  The loop always consumes
the whole remaining input. -/
def Parser.parseBody {α : Type} (p : Parser) (env : Env α) (fileName : String)
    (data : α) (req : Request) (input : List String) :
    Except ParseError (Request × List String) :=
  match p.parseBodyAcc env data "" input with
  | .error e => .error e
  | .ok s => .ok (if s = "" then req else { req with Body := some s }, [])

/-- One request-line, header, body cycle, exactly the sequence of
`Parser.Parse` after rendering: seek and parse the request line, read
headers (end of input there is success with no body), otherwise a header
error or the body. -/
def Parser.parseUnit {α : Type} (p : Parser) (env : Env α) (fileName : String)
    (data : α) (input : List String) : Except ParseError (Request × List String) :=
  match p.parseRequest env fileName input with
  | .error e => .error e
  | .ok (req, rest) =>
    match p.parseHeaders req rest with
    | (req2, .eof, rest2) => .ok (req2, rest2)
    | (_, .malformed line, _) => .error (.invalidHeaderError (p.file fileName) line)
    | (req2, .done, rest2) => p.parseBody env fileName data req2 rest2

/-- Model of `Parser.Parse`: render the file, then run one request-line,
header, body cycle on the rendered lines and return the request. -/
def Parser.Parse {α : Type} (p : Parser) (env : Env α) (fileName : String)
    (data : α) : Except ParseError Request :=
  match p.exec env fileName data with
  | .error e => .error e
  | .ok buf =>
    match p.parseUnit env fileName data (splitLines buf) with
    | .error e => .error e
    | .ok (req, _) => .ok req

/-- Modelled from the spec: the repository's `parse-all` operation is not
under `src/` (only its tests call it), so its loop is modelled from the
specification: after rendering once, repeatedly run the request-line,
header, body sequence, producing successive units until end of input is
reached with no further non-comment content (a remaining line counts as
further content when it is neither a comment nor blank).  An input with
no request content fails inside the first cycle with
`invalidRequestFileError`, never returning an empty sequence.  The fuel
is one more than the number of remaining lines, which every successful
cycle strictly consumes. -/
def Parser.parseAllUnits {α : Type} (p : Parser) (env : Env α) (fileName : String)
    (data : α) : Nat → List String → Except ParseError (List Request)
  | 0, _ => .ok []
  | fuel + 1, input =>
    match p.parseUnit env fileName data input with
    | .error e => .error e
    | .ok (req, rest) =>
      if rest.any (fun l => !(isComment l || l == "")) then
        match p.parseAllUnits env fileName data fuel rest with
        | .error e => .error e
        | .ok reqs => .ok (req :: reqs)
      else .ok [req]

/-- Modelled from the spec: `parse-all` renders the file once and runs
`parseAllUnits` on its lines. -/
def Parser.ParseAll {α : Type} (p : Parser) (env : Env α) (fileName : String)
    (data : α) : Except ParseError (List Request) :=
  match p.exec env fileName data with
  | .error e => .error e
  | .ok buf => p.parseAllUnits env fileName data ((splitLines buf).length + 1) (splitLines buf)

/-- Concatenation of a list of strings, used to state body assembly. -/
def strConcat : List String → String
  | [] => ""
  | s :: rest => s ++ strConcat rest

/-- The body contribution of one raw line: the rendered referenced file
for an inclusion line, the line itself otherwise (specification-side
selector used only in theorem statements). -/
def bodyChunk {α : Type} (p : Parser) (env : Env α) (data : α) (l : String) : String :=
  if strHasPrefix l "<" then
    match env.render (p.file (trimWS (strTail l))) data with
    | .ok t => t
    | .error _ => ""
  else l

/-- The URL field of a request line with an accepted field count
(specification-side selector used only in theorem statements). -/
def urlField : List String → Option String
  | [u] => some u
  | [_, u] => some u
  | [_, u, _] => some u
  | _ => none

/-- Decidable equality of results, used to evaluate the model on
concrete inputs. -/
instance {ε σ : Type} [DecidableEq ε] [DecidableEq σ] : DecidableEq (Except ε σ) :=
  fun a b =>
    match a, b with
    | .ok x, .ok y =>
      if h : x = y then isTrue (by rw [h]) else isFalse (by simp [h])
    | .error x, .error y =>
      if h : x = y then isTrue (by rw [h]) else isFalse (by simp [h])
    | .ok _, .error _ => isFalse (by simp)
    | .error _, .ok _ => isFalse (by simp)

/-- Concrete parser used by witnesses: empty base URL, empty base
directory. -/
def p0 : Parser := { BaseURL := "", Path := "" }

/-- Witness environment whose rendering always yields one fixed request
line and whose URL parsing accepts everything. -/
def envOk : Env Unit :=
  { render := fun _ _ => .ok "GET /x", urlParse := fun s => .ok s }

/-- Witness environment whose URL parsing always fails. -/
def envURLFail : Env Unit :=
  { render := fun _ _ => .ok "GET /x", urlParse := fun _ => .error "bad" }

/-- Witness environment whose rendering always fails. -/
def envRenderFail : Env Unit :=
  { render := fun _ _ => .error "missing", urlParse := fun s => .ok s }

/-- Witness environment rendering only comment lines. -/
def envComments : Env Unit :=
  { render := fun _ _ => .ok "# a\x0d\n// b", urlParse := fun s => .ok s }

/-- Witness environment rendering a blank line before the request
line. -/
def envBlankFirst : Env Unit :=
  { render := fun _ _ => .ok "\nGET /x", urlParse := fun s => .ok s }

/-- The request produced from the line `GET /x` under `p0` and an
accepting URL oracle, used by witnesses. -/
def req0 : Request :=
  { Method := "GET", URL := some "/x", Proto := "", Header := some [], Body := none }

/-- Sanity check of the line splitter on mixed line endings. -/
theorem splitLines_mixed : splitLines "a\x0d\nb\nc" = ["a", "b", "c"] := by decide

/-- Sanity check of the line splitter on an empty buffer. -/
theorem splitLines_empty : splitLines "" = [] := by decide

/-- Sanity check of the line splitter on a leading blank line. -/
theorem splitLines_leading_blank : splitLines "\nGET /x" = ["", "GET /x"] := by decide

/-- Sanity check of the field splitter. -/
theorem goFields_two : goFields "GET  /x " = ["GET", "/x"] := by decide

/-- Sanity check of the field splitter on an empty line. -/
theorem goFields_empty : goFields "" = [] := by decide

/-- Sanity check of continuation folding. -/
theorem readContinuedLine_fold :
    readContinuedLine ["A: b", "\tc", "d"] = some ("A: b c", ["d"]) := by decide

/-- Sanity check of header reading with canonicalization. -/
theorem readMIMEHeader_canonical : readMIMEHeader ["content-type: x", "", "body"] =
    ([("Content-Type", "x")], .done, ["body"]) := by decide

/-- Sanity check of header reading at end of input. -/
theorem readMIMEHeader_empty : readMIMEHeader [] = ([], .eof, []) := by decide

/-- A prefix of a list is a prefix of any right extension. -/
theorem isPrefixOf_append_right (pre l r : List Char)
    (h : pre.isPrefixOf l = true) : pre.isPrefixOf (l ++ r) = true := by
  rw [ List.isPrefixOf_iff_prefix] at h ⊢
  exact h.trans (List.prefix_append l r)

/-- Boolean prefix test characterised by an explicit suffix. -/
theorem isPrefixOf_eq_exists (pre l : List Char) :
    pre.isPrefixOf l = true ↔ ∃ t, l = pre ++ t := by
  rw [ List.isPrefixOf_iff_prefix]
  constructor
  · rintro ⟨t, ht⟩; exact ⟨t, ht.symm⟩
  · rintro ⟨t, ht⟩; exact ⟨t, ht.symm⟩

/-- String prefixes survive appending on the right. -/
theorem strHasPrefix_append (a b pre : String)
    (h : strHasPrefix a pre = true) : strHasPrefix (a ++ b) pre = true := by
  unfold strHasPrefix at h ⊢
  rw [String.data_append]
  exact isPrefixOf_append_right _ _ _ h

/-- Folding continuation lines only appends to the first line. -/
theorem foldCont_fst (acc : String) (rest : List String) :
    ∃ t, (foldCont acc rest).1 = acc ++ t := by
  induction rest generalizing acc with
  | nil => exact ⟨"", by simp [foldCont]⟩
  | cons l ls ih =>
    by_cases h : startsWithST l = true
    · obtain ⟨t, ht⟩ := ih (acc ++ " " ++ trimST l)
      refine ⟨" " ++ trimST l ++ t, ?_⟩
      simp only [foldCont, h, if_true]
      rw [ht]
      simp [String.append_assoc]
    · exact ⟨"", by simp [foldCont, h]⟩

/-- Lines left over after folding continuations come from the input. -/
theorem foldCont_snd_mem (acc : String) (rest : List String) :
    ∀ l ∈ (foldCont acc rest).2, l ∈ rest := by
  induction rest generalizing acc with
  | nil => simp [foldCont]
  | cons x xs ih =>
    intro l hl
    by_cases h : startsWithST x = true
    · simp only [foldCont, h, if_true] at hl
      exact List.mem_cons_of_mem x (ih _ l hl)
    · simp only [foldCont, h, if_false] at hl
      simpa using hl

/-- Right trimming of spaces and tabs keeps any prefix made of
characters that are not spaces or tabs. -/
theorem isPrefixOf_rtrim (pre cs : List Char)
    (hne : pre ≠ []) (hall : ∀ c ∈ pre, isSpaceTab c = false)
    (h : pre.isPrefixOf cs = true) :
    pre.isPrefixOf ((cs.reverse.dropWhile isSpaceTab).reverse) = true := by
  obtain ⟨t, ht⟩ := (isPrefixOf_eq_exists pre cs).1 h
  subst ht
  rw [List.reverse_append, List.dropWhile_append]
  by_cases he : (t.reverse.dropWhile isSpaceTab).isEmpty = true
  · rw [if_pos he]
    have hpr : pre.reverse.dropWhile isSpaceTab = pre.reverse := by
      cases hrev : pre.reverse with
      | nil => simp
      | cons d ds =>
        have hd : d ∈ pre := by
          rw [← List.mem_reverse, hrev]
          exact List.mem_cons_self d ds
        simp [List.dropWhile_cons, hall d hd]
    rw [hpr, List.reverse_reverse]
    exact (isPrefixOf_eq_exists pre pre).2 ⟨[], by simp⟩
  · rw [if_neg he, List.reverse_append, List.reverse_reverse]
    exact (isPrefixOf_eq_exists _ _).2 ⟨(t.reverse.dropWhile isSpaceTab).reverse, rfl⟩

/-- Textproto trimming keeps any prefix made of characters that are not
spaces or tabs. -/
theorem strHasPrefix_trimST (l pre : String) (hne : pre.data ≠ [])
    (hall : ∀ c ∈ pre.data, isSpaceTab c = false)
    (h : strHasPrefix l pre = true) : strHasPrefix (trimST l) pre = true := by
  unfold strHasPrefix at h ⊢
  show pre.data.isPrefixOf
    (((l.data.dropWhile isSpaceTab).reverse.dropWhile isSpaceTab).reverse) = true
  have hdw : l.data.dropWhile isSpaceTab = l.data := by
    obtain ⟨t, ht⟩ := (isPrefixOf_eq_exists _ _).1 h
    cases hp : pre.data with
    | nil => exact absurd hp hne
    | cons c cs =>
      rw [hp] at ht
      rw [ht]
      have hc : isSpaceTab c = false := hall c (by rw [hp]; exact List.mem_cons_self c cs)
      simp [List.dropWhile_cons, hc]
  rw [hdw]
  exact isPrefixOf_rtrim pre.data l.data hne hall h

/-- Comment lines stay comments after textproto trimming. -/
theorem isComment_trimST (l : String) (h : isComment l = true) :
    isComment (trimST l) = true := by
  unfold isComment at h ⊢
  simp only [Bool.or_eq_true] at h ⊢
  rcases h with h1 | h1
  · exact Or.inl (strHasPrefix_trimST l "#" (by decide) (by decide) h1)
  · exact Or.inr (strHasPrefix_trimST l "//" (by decide) (by decide) h1)

/-- The folded logical line built from a comment line is still a
comment. -/
theorem isComment_foldCont (acc : String) (rest : List String)
    (h : isComment acc = true) : isComment (foldCont acc rest).1 = true := by
  obtain ⟨t, ht⟩ := foldCont_fst acc rest
  rw [ht]
  unfold isComment at h ⊢
  simp only [Bool.or_eq_true] at h ⊢
  rcases h with h1 | h1
  · exact Or.inl (strHasPrefix_append _ _ _ h1)
  · exact Or.inr (strHasPrefix_append _ _ _ h1)

/-- Seeking the request line over nothing but comment lines always ends
at end of input with `invalidRequestFileError`. -/
theorem seekRequest_all_comments {α : Type} (p : Parser) (env : Env α)
    (fileName : String) :
    ∀ (fuel : Nat) (input : List String),
      (∀ l ∈ input, isComment l = true) →
      p.seekRequest env fileName fuel input =
        .error (.invalidRequestFileError (p.file fileName) "EOF") := by
  intro fuel
  induction fuel with
  | zero => intro input _; rfl
  | succ fuel ih =>
    intro input hall
    cases input with
    | nil => rfl
    | cons l rest =>
      have hlc : isComment l = true := hall l (List.mem_cons_self l rest)
      have hlne : ¬(l = "") := by
        intro he
        rw [he] at hlc
        exact absurd hlc (by decide)
      rcases hfc : foldCont (trimST l) rest with ⟨line, rest'⟩
      have hline : isComment line = true := by
        have := isComment_foldCont (trimST l) rest (isComment_trimST l hlc)
        rw [hfc] at this
        exact this
      have hmem : ∀ x ∈ rest', x ∈ rest := by
        intro x hx
        have := foldCont_snd_mem (trimST l) rest x
        rw [hfc] at this
        exact this hx
      simp only [Parser.seekRequest, readContinuedLine, if_neg hlne, hfc, hline, if_true]
      exact ih rest' fun x hx => hall x (List.mem_cons_of_mem l (hmem x hx))

/-- A request produced by the request-line parser has no body and no
header map yet. -/
theorem parseRequestLine_ok_shape {α : Type} (p : Parser) (env : Env α)
    (fileName line : String) (req : Request)
    (h : p.parseRequestLine env fileName line = .ok req) :
    req.Body = none ∧ req.Header = none := by
  unfold Parser.parseRequestLine at h
  split at h <;> try (split at h)
  all_goals simp_all
  all_goals (cases h; simp)

/-- A request produced by the seek loop has no body yet. -/
theorem seekRequest_Body_none {α : Type} (p : Parser) (env : Env α)
    (fileName : String) :
    ∀ (fuel : Nat) (input : List String) (req : Request) (rest : List String),
      p.seekRequest env fileName fuel input = .ok (req, rest) → req.Body = none := by
  intro fuel
  induction fuel with
  | zero =>
    intro input req rest h
    exact absurd h (by simp [Parser.seekRequest])
  | succ fuel ih =>
    intro input req rest h
    cases input with
    | nil => exact absurd h (by simp [Parser.seekRequest, readContinuedLine])
    | cons l rs =>
      by_cases hb : l = ""
      · subst hb
        have hpl : p.parseRequestLine env fileName "" =
            .error (.invalidRequestLineError (p.file fileName) "") := by
          unfold Parser.parseRequestLine
          have hg : goFields "" = [] := by decide
          rw [hg]
        have hcom : isComment "" = false := by decide
        simp [Parser.seekRequest, readContinuedLine, hcom, hpl] at h
      · rcases hfc : foldCont (trimST l) rs with ⟨line, rest'⟩
        simp only [Parser.seekRequest, readContinuedLine, if_neg hb, hfc] at h
        by_cases hc : isComment line = true
        · rw [hc] at h
          simp only [if_true] at h
          exact ih rest' req rest h
        · rw [Bool.not_eq_true] at hc
          rw [hc] at h
          simp only [Bool.false_eq_true, if_false] at h
          cases hpl : p.parseRequestLine env fileName line with
          | error e => rw [hpl] at h; simp at h
          | ok req' =>
            rw [hpl] at h
            simp at h
            exact h.1 ▸ (parseRequestLine_ok_shape p env fileName line req' hpl).1

/-- C1: the request line is split on white space into fields and the
parser dispatches on the field count: one field is a bare URL with
method GET and protocol unset, two fields are method and URL, three
fields add the protocol, and any other field count fails with
`invalidRequestLineError` carrying the resolved file and the literal
line text, the two fields its message is rendered from. -/
theorem requestLine_dispatch {α : Type} (p : Parser) (env : Env α)
    (fileName line : String) :
    (∀ u, goFields line = [u] →
      p.parseRequestLine env fileName line =
        (p.parseURL env fileName u).map fun w =>
          { Method := "GET", URL := some w, Proto := "",
            Header := none, Body := none }) ∧
    (∀ m u, goFields line = [m, u] →
      p.parseRequestLine env fileName line =
        (p.parseURL env fileName u).map fun w =>
          { Method := m, URL := some w, Proto := "",
            Header := none, Body := none }) ∧
    (∀ m u pr, goFields line = [m, u, pr] →
      p.parseRequestLine env fileName line =
        (p.parseURL env fileName u).map fun w =>
          { Method := m, URL := some w, Proto := pr,
            Header := none, Body := none }) ∧
    ((goFields line).length = 0 ∨ 4 ≤ (goFields line).length →
      p.parseRequestLine env fileName line =
        .error (.invalidRequestLineError (p.file fileName) line)) := by
  refine ⟨?_, ?_, ?_, ?_⟩
  · intro u h
    unfold Parser.parseRequestLine
    rw [h]
    cases hp : p.parseURL env fileName u <;> simp [Except.map, hp]
  · intro m u h
    unfold Parser.parseRequestLine
    rw [h]
    cases hp : p.parseURL env fileName u <;> simp [Except.map, hp]
  · intro m u pr h
    unfold Parser.parseRequestLine
    rw [h]
    cases hp : p.parseURL env fileName u <;> simp [Except.map, hp]
  · intro h
    unfold Parser.parseRequestLine
    rcases hg : goFields line with _ | ⟨a, _ | ⟨b, _ | ⟨c, _ | ⟨d, tl⟩⟩⟩⟩
    · rfl
    · rw [hg] at h; simp at h
    · rw [hg] at h; simp at h
    · rw [hg] at h; simp at h
    · rfl

/-- Witness for `requestLine_dispatch`: a concrete four-field line
fails with the error carrying the file and the literal line. -/
theorem requestLine_dispatch_witness :
    p0.parseRequestLine envOk "f.http" "GET https://x HTTP/1.1 EXTRA" =
      .error (.invalidRequestLineError (p0.file "f.http")
        "GET https://x HTTP/1.1 EXTRA") :=
  (requestLine_dispatch p0 envOk "f.http" "GET https://x HTTP/1.1 EXTRA").2.2.2
    (Or.inr (by decide))

/-- C2: the target URL is the configured base URL prefix concatenated
with the URL field of the request line, then parsed; exactly when that
parse fails, the request line fails with `invalidURLError` carrying the
concatenated URL string, the resolved file and the underlying cause. -/
theorem url_resolution {α : Type} (p : Parser) (env : Env α)
    (fileName line u : String) (hu : urlField (goFields line) = some u) :
    (∀ c, env.urlParse (p.BaseURL ++ u) = .error c →
      p.parseRequestLine env fileName line =
        .error (.invalidURLError (p.file fileName) (p.BaseURL ++ u) c)) ∧
    (∀ w, env.urlParse (p.BaseURL ++ u) = .ok w →
      ∃ req, p.parseRequestLine env fileName line = .ok req ∧ req.URL = some w) := by
  rcases hg : goFields line with _ | ⟨a, _ | ⟨b, _ | ⟨c, _ | ⟨d, tl⟩⟩⟩⟩ <;>
    rw [hg] at hu <;> simp only [urlField, Option.some.injEq] at hu
  · exact absurd hu (by simp)
  · subst hu
    constructor
    · intro cc hc
      simp [Parser.parseRequestLine, hg, Parser.parseURL, hc]
    · intro w hw
      exact ⟨{ Method := "GET", URL := some w, Proto := "", Header := none, Body := none },
        by simp [Parser.parseRequestLine, hg, Parser.parseURL, hw], rfl⟩
  · subst hu
    constructor
    · intro cc hc
      simp [Parser.parseRequestLine, hg, Parser.parseURL, hc]
    · intro w hw
      exact ⟨{ Method := a, URL := some w, Proto := "", Header := none, Body := none },
        by simp [Parser.parseRequestLine, hg, Parser.parseURL, hw], rfl⟩
  · subst hu
    constructor
    · intro cc hc
      simp [Parser.parseRequestLine, hg, Parser.parseURL, hc]
    · intro w hw
      exact ⟨{ Method := a, URL := some w, Proto := c, Header := none, Body := none },
        by simp [Parser.parseRequestLine, hg, Parser.parseURL, hw], rfl⟩
  · exact absurd hu (by simp)

/-- Witness for `url_resolution`: with a URL oracle that rejects
everything, a concrete request line fails with `invalidURLError`
carrying the concatenated URL. -/
theorem url_resolution_witness :
    p0.parseRequestLine envURLFail "f.http" "GET /x" =
      .error (.invalidURLError (p0.file "f.http") (p0.BaseURL ++ "/x") "bad") :=
  (url_resolution p0 envURLFail "f.http" "GET /x" "/x" (by decide)).1 "bad" rfl

/-- C6: when the rendered file contains only comment lines before end of
input (an empty rendering included), the parse call fails with
`invalidRequestFileError` carrying the resolved file path, never
returning a request. -/
theorem no_request_found {α : Type} (p : Parser) (env : Env α)
    (fileName : String) (data : α) (text : String)
    (hr : env.render (p.file fileName) data = .ok text)
    (hc : ∀ l ∈ splitLines text, isComment l = true) :
    p.Parse env fileName data =
      .error (.invalidRequestFileError (p.file fileName) "EOF") := by
  have hex : p.exec env fileName data = .ok text := by
    unfold Parser.exec
    rw [hr]
  simp [Parser.Parse, Parser.parseUnit, Parser.parseRequest, hex,
    seekRequest_all_comments p env fileName _ _ hc]

/-- Witness for `no_request_found`: a rendering holding one `#` line and
one `//` line fails with `invalidRequestFileError`. -/
theorem no_request_found_witness :
    p0.Parse envComments "f.http" () =
      .error (.invalidRequestFileError (p0.file "f.http") "EOF") :=
  no_request_found p0 envComments "f.http" () "# a\x0d\n// b" rfl (by decide)

/-- C7: a rendering failure of any file, top level or referenced from a
body inclusion line, surfaces as a `templateError` carrying the resolved
file path and the underlying cause, with no partial output returned, and
the inclusion case produces the very same error kind as the top-level
case. -/
theorem template_failure {α : Type} (p : Parser) (env : Env α) (data : α) :
    (∀ fileName c, env.render (p.file fileName) data = .error c →
      p.exec env fileName data = .error (.templateError (p.file fileName) c)) ∧
    (∀ fileName t, env.render (p.file fileName) data = .ok t →
      p.exec env fileName data = .ok t) ∧
    (∀ acc l rest c, strHasPrefix l "<" = true →
      env.render (p.file (trimWS (strTail l))) data = .error c →
      p.parseBodyAcc env data acc (l :: rest) =
        .error (.templateError (p.file (trimWS (strTail l))) c)) := by
  refine ⟨?_, ?_, ?_⟩
  · intro fileName c hc
    unfold Parser.exec
    rw [hc]
  · intro fileName t ht
    unfold Parser.exec
    rw [ht]
  · intro acc l rest c hl hc
    unfold Parser.parseBodyAcc
    rw [if_pos hl]
    unfold Parser.exec
    rw [hc]

/-- Witness for `template_failure`: a failing renderer yields the same
`templateError` kind at top level and through a body inclusion line. -/
theorem template_failure_witness :
    p0.exec envRenderFail "f.http" () =
      .error (.templateError (p0.file "f.http") "missing") ∧
    p0.parseBodyAcc envRenderFail () "" ["< body.json"] =
      .error (.templateError (p0.file (trimWS (strTail "< body.json"))) "missing") :=
  ⟨(template_failure p0 envRenderFail ()).1 "f.http" "missing" rfl,
   (template_failure p0 envRenderFail ()).2.2 "" "< body.json" [] "missing"
     (by decide) rfl⟩

/-- C10: comment recognition applies only while seeking the request
line: during body accumulation a raw line that is a comment is not
skipped but appended verbatim followed by the canonical terminator,
exactly like any other literal body line. -/
theorem body_keeps_comments {α : Type} (p : Parser) (env : Env α) (data : α)
    (acc l : String) (rest : List String) (h : isComment l = true) :
    p.parseBodyAcc env data acc (l :: rest) =
      p.parseBodyAcc env data (acc ++ l ++ httpEOL) rest := by
  have hlt : strHasPrefix l "<" = false := by
    unfold isComment at h
    simp only [Bool.or_eq_true] at h
    unfold strHasPrefix at h ⊢
    have h35 : ("#" : String).data = ['#'] := rfl
    have hsl : ("//" : String).data = ['/', '/'] := rfl
    have hlt2 : ("<" : String).data = ['<'] := rfl
    rcases h with h1 | h1
    · obtain ⟨t, ht⟩ := (isPrefixOf_eq_exists _ _).1 h1
      rw [h35] at ht
      rw [hlt2, ht]
      simp [List.isPrefixOf]
    · obtain ⟨t, ht⟩ := (isPrefixOf_eq_exists _ _).1 h1
      rw [hsl] at ht
      rw [hlt2, ht]
      simp [List.isPrefixOf]
  simp [Parser.parseBodyAcc, hlt]

/-- Witness for `body_keeps_comments`: a concrete `//` line inside a
body is appended literally. -/
theorem body_keeps_comments_witness :
    p0.parseBodyAcc envOk () "" ["// not skipped"] =
      p0.parseBodyAcc envOk () ("" ++ "// not skipped" ++ httpEOL) [] :=
  body_keeps_comments p0 envOk () "" "// not skipped" [] (by decide)

/-- C3: body assembly processes every raw line until end of input: an
inclusion line (leading `<`, file name trimmed of white space)
contributes the rendering of the referenced file, any other line
contributes itself verbatim, and every contribution is followed by the
canonical terminator `httpEOL`, normalising all input line endings. -/
theorem body_assembly {α : Type} (p : Parser) (env : Env α) (data : α)
    (acc : String) (input : List String)
    (hren : ∀ l ∈ input, strHasPrefix l "<" = true →
      ∃ t, env.render (p.file (trimWS (strTail l))) data = .ok t) :
    p.parseBodyAcc env data acc input =
      .ok (acc ++ strConcat (input.map fun l => bodyChunk p env data l ++ httpEOL)) := by
  induction input generalizing acc with
  | nil => simp [Parser.parseBodyAcc, strConcat]
  | cons l rest ih =>
    by_cases hl : strHasPrefix l "<" = true
    · obtain ⟨t, ht⟩ := hren l (List.mem_cons_self l rest) hl
      have hex : p.exec env (trimWS (strTail l)) data = .ok t := by
        unfold Parser.exec
        rw [ht]
      have hchunk : bodyChunk p env data l = t := by
        unfold bodyChunk
        rw [if_pos hl, ht]
      simp only [Parser.parseBodyAcc, hl, if_true, hex]
      rw [ih _ (fun x hx hpx => hren x (List.mem_cons_of_mem l hx) hpx)]
      simp [strConcat, hchunk, String.append_assoc]
    · have hchunk : bodyChunk p env data l = l := by
        unfold bodyChunk
        rw [if_neg hl]
      rw [Bool.not_eq_true] at hl
      simp only [Parser.parseBodyAcc, hl, Bool.false_eq_true, if_false]
      rw [ih _ (fun x hx hpx => hren x (List.mem_cons_of_mem l hx) hpx)]
      simp [strConcat, hchunk, String.append_assoc]

/-- Witness for `body_assembly`: an inclusion line followed by a literal
line assembles into the rendered chunk and the literal chunk, each
followed by the canonical terminator. -/
theorem body_assembly_witness :
    p0.parseBodyAcc envOk () "" ["< body.json", "tail"] =
      .ok ("" ++ strConcat ((["< body.json", "tail"]).map fun l =>
        bodyChunk p0 envOk () l ++ httpEOL)) :=
  body_assembly p0 envOk () "" ["< body.json", "tail"]
    (fun _ _ _ => ⟨"GET /x", rfl⟩)

/-- The body accumulator only grows. -/
theorem parseBodyAcc_growth {α : Type} (p : Parser) (env : Env α) (data : α) :
    ∀ (input : List String) (acc s : String),
      p.parseBodyAcc env data acc input = .ok s →
      acc.length ≤ s.length := by
  intro input
  induction input with
  | nil =>
    intro acc s h
    simp [Parser.parseBodyAcc] at h
    rw [h]
  | cons l rest ih =>
    intro acc s h
    by_cases hl : strHasPrefix l "<" = true
    · simp only [Parser.parseBodyAcc, hl, if_true] at h
      cases hex : p.exec env (trimWS (strTail l)) data with
      | error e => rw [hex] at h; simp at h
      | ok t =>
        rw [hex] at h
        have hrec := ih _ _ h
        have hgrow : (acc ++ t ++ httpEOL).length = acc.length + t.length + 2 := by
          have : httpEOL.length = 2 := by decide
          simp [String.length_append, this]
        omega
    · rw [Bool.not_eq_true] at hl
      simp only [Parser.parseBodyAcc, hl, Bool.false_eq_true, if_false] at h
      have hrec := ih _ _ h
      have hgrow : (acc ++ l ++ httpEOL).length = acc.length + l.length + 2 := by
        have : httpEOL.length = 2 := by decide
        simp [String.length_append, this]
      omega

/-- One body line always contributes at least the two terminator
characters. -/
theorem parseBodyAcc_cons_length {α : Type} (p : Parser) (env : Env α)
    (data : α) (l : String) (rest : List String) (acc s : String)
    (h : p.parseBodyAcc env data acc (l :: rest) = .ok s) :
    acc.length + 2 ≤ s.length := by
  by_cases hl : strHasPrefix l "<" = true
  · simp only [Parser.parseBodyAcc, hl, if_true] at h
    cases hex : p.exec env (trimWS (strTail l)) data with
    | error e => rw [hex] at h; simp at h
    | ok t =>
      rw [hex] at h
      have hrec := parseBodyAcc_growth p env data rest _ _ h
      have hgrow : (acc ++ t ++ httpEOL).length = acc.length + t.length + 2 := by
        have : httpEOL.length = 2 := by decide
        simp [String.length_append, this]
      omega
  · rw [Bool.not_eq_true] at hl
    simp only [Parser.parseBodyAcc, hl, Bool.false_eq_true, if_false] at h
    have hrec := parseBodyAcc_growth p env data rest _ _ h
    have hgrow : (acc ++ l ++ httpEOL).length = acc.length + l.length + 2 := by
      have : httpEOL.length = 2 := by decide
      simp [String.length_append, this]
    omega

/-- C4: for a successfully assembled unit the body is absent exactly
when zero body lines were read after the header block; one or more body
lines, literal or inclusion, always make the body present, so absence
and emptiness are distinguishable. -/
theorem body_absent_iff_no_lines {α : Type} (p : Parser) (env : Env α)
    (fileName : String) (data : α) (req : Request) (input : List String)
    (r : Request) (rest : List String) (hb : req.Body = none)
    (h : p.parseBody env fileName data req input = .ok (r, rest)) :
    (r.Body = none ↔ input = []) := by
  cases input with
  | nil =>
    have hs : p.parseBodyAcc env data "" ([] : List String) = .ok "" := rfl
    unfold Parser.parseBody at h
    rw [hs] at h
    simp at h
    constructor
    · intro _; rfl
    · intro _
      rw [← h.1]
      exact hb
  | cons l rest2 =>
    unfold Parser.parseBody at h
    cases hacc : p.parseBodyAcc env data "" (l :: rest2) with
    | error e => rw [hacc] at h; simp at h
    | ok s =>
      simp only [hacc] at h
      have hlen := parseBodyAcc_cons_length p env data l rest2 "" s hacc
      have hsne : ¬(s = "") := by
        intro he
        rw [he] at hlen
        exact absurd hlen (by decide)
      rw [if_neg hsne] at h
      simp at h
      constructor
      · intro hrb
        rw [← h.1] at hrb
        simp at hrb
      · intro hcon
        simp at hcon

/-- Witness for `body_absent_iff_no_lines`: a single literal line makes
the body present. -/
theorem body_absent_iff_no_lines_witness :
    (({ Method := "GET", URL := some "/x", Proto := "", Header := some [],
        Body := some "hello\x0d\n" } : Request).Body = none ↔
      (["hello"] : List String) = []) :=
  body_absent_iff_no_lines p0 envOk "f.http" ()
    { Method := "GET", URL := some "/x", Proto := "", Header := some [],
      Body := none }
    ["hello"]
    { Method := "GET", URL := some "/x", Proto := "", Header := some [],
      Body := some "hello\x0d\n" }
    [] rfl (by decide)

/-- C5: end of input immediately after the request line is not an
error: the parse call succeeds with a unit whose header map is present
but empty and whose body is absent. -/
theorem eof_after_request_line {α : Type} (p : Parser) (env : Env α)
    (fileName : String) (data : α) (text : String) (req : Request)
    (hr : env.render (p.file fileName) data = .ok text)
    (hreq : p.parseRequest env fileName (splitLines text) = .ok (req, [])) :
    ∃ r, p.Parse env fileName data = .ok r ∧ r.Header = some [] ∧ r.Body = none := by
  refine ⟨{ req with Header := some [] }, ?_, rfl, ?_⟩
  · have hex : p.exec env fileName data = .ok text := by
      unfold Parser.exec
      rw [hr]
    have hhdr : p.parseHeaders req ([] : List String) =
        ({ req with Header := some [] }, .eof, []) := rfl
    simp [Parser.Parse, Parser.parseUnit, hex, hreq, hhdr]
  · exact seekRequest_Body_none p env fileName _ _ req [] hreq

/-- Witness for `eof_after_request_line` on a rendering holding only a
request line. -/
theorem eof_after_request_line_witness :
    ∃ r, p0.Parse envOk "f.http" () = .ok r ∧ r.Header = some [] ∧ r.Body = none :=
  eof_after_request_line p0 envOk "f.http" () "GET /x"
    { Method := "GET", URL := some "/x", Proto := "", Header := none, Body := none }
    rfl (by decide)

/-- Counterexample to C8 as stated: a leading blank line is not
skipped.  With a blank first line the parse fails with
`invalidRequestLineError` on the empty logical line, while the same
rendering without the blank line succeeds, so blank lines do contribute
to request-line detection. -/
theorem blank_line_counterexample :
    p0.Parse envBlankFirst "f.http" () =
      .error (.invalidRequestLineError (p0.file "f.http") "") ∧
    p0.Parse envOk "f.http" () =
      .ok { Method := "GET", URL := some "/x", Proto := "",
            Header := some [], Body := none } :=
  ⟨by decide, by decide⟩

/-- C8 amended: while seeking the request line, only comment lines are
skipped, and the request line is the first logical line that is not a
comment; a leading blank line is not skipped but taken as the request
line, where its zero fields fail with `invalidRequestLineError`. -/
theorem seek_skips_only_comments {α : Type} (p : Parser) (env : Env α)
    (fileName : String) :
    (∀ (fuel : Nat) (l : String) (rest : List String), ¬(l = "") →
      isComment (foldCont (trimST l) rest).1 = true →
      p.seekRequest env fileName (fuel + 1) (l :: rest) =
        p.seekRequest env fileName fuel (foldCont (trimST l) rest).2) ∧
    (∀ (fuel : Nat) (l : String) (rest : List String), ¬(l = "") →
      isComment (foldCont (trimST l) rest).1 = false →
      p.seekRequest env fileName (fuel + 1) (l :: rest) =
        match p.parseRequestLine env fileName (foldCont (trimST l) rest).1 with
        | .error e => .error e
        | .ok req => .ok (req, (foldCont (trimST l) rest).2)) ∧
    (∀ (fuel : Nat) (rest : List String),
      p.seekRequest env fileName (fuel + 1) ("" :: rest) =
        .error (.invalidRequestLineError (p.file fileName) "")) := by
  refine ⟨?_, ?_, ?_⟩
  · intro fuel l rest hne hc
    rcases hfc : foldCont (trimST l) rest with ⟨line, rest2⟩
    rw [hfc] at hc
    simp [Parser.seekRequest, readContinuedLine, hne, hfc, hc]
  · intro fuel l rest hne hc
    rcases hfc : foldCont (trimST l) rest with ⟨line, rest2⟩
    rw [hfc] at hc
    simp [Parser.seekRequest, readContinuedLine, hne, hfc, hc]
  · intro fuel rest
    have hcom : isComment "" = false := by decide
    have hpl : p.parseRequestLine env fileName "" =
        .error (.invalidRequestLineError (p.file fileName) "") := by
      unfold Parser.parseRequestLine
      have hg : goFields "" = [] := by decide
      rw [hg]
    simp [Parser.seekRequest, readContinuedLine, hcom, hpl]

/-- Witness for `seek_skips_only_comments`: a concrete comment line is
skipped before the request line. -/
theorem seek_skips_only_comments_witness :
    p0.seekRequest envOk "f.http" 2 ["# c", "GET /x"] =
      p0.seekRequest envOk "f.http" 1 (foldCont (trimST "# c") ["GET /x"]).2 :=
  (seek_skips_only_comments p0 envOk "f.http").1 1 "# c" ["GET /x"]
    (by decide) (by decide)

/-- C9: whenever parse-all succeeds on a file, parse-one on the same
file with the same data succeeds and returns exactly the first element
of the returned sequence. -/
theorem parse_one_head_of_parse_all {α : Type} (p : Parser) (env : Env α)
    (fileName : String) (data : α) (rs : List Request)
    (h : p.ParseAll env fileName data = .ok rs) :
    ∃ r, rs.head? = some r ∧ p.Parse env fileName data = .ok r := by
  unfold Parser.ParseAll at h
  cases hex : p.exec env fileName data with
  | error e => rw [hex] at h; simp at h
  | ok buf =>
    rw [hex] at h
    unfold Parser.parseAllUnits at h
    cases hu : p.parseUnit env fileName data (splitLines buf) with
    | error e => rw [hu] at h; simp at h
    | ok rr =>
      obtain ⟨req, rest⟩ := rr
      simp only [hu] at h
      by_cases hcont : (rest.any fun l => !(isComment l || l == "")) = true
      · rw [if_pos hcont] at h
        cases hrec : p.parseAllUnits env fileName data (splitLines buf).length rest with
        | error e => rw [hrec] at h; simp at h
        | ok reqs =>
          rw [hrec] at h
          simp at h
          subst h
          exact ⟨req, rfl, by simp [Parser.Parse, hex, hu]⟩
      · rw [if_neg hcont] at h
        simp at h
        subst h
        exact ⟨req, rfl, by simp [Parser.Parse, hex, hu]⟩

/-- Witness for `parse_one_head_of_parse_all` on a single-request
file. -/
theorem parse_one_head_of_parse_all_witness :
    ∃ r, ([req0] : List Request).head? = some r ∧
      p0.Parse envOk "f.http" () = .ok r :=
  parse_one_head_of_parse_all p0 envOk "f.http" () [req0] (by decide)
